import Mathlib

/-!
Verification development for the obsidian-rag note segmentation engine and
query-plan-driven retrieval orchestrator.

Strings are modelled as `List Char` (Python `str`), so that every operation
is a plain structurally recursive function the kernel can evaluate.  Python
lists become Lean lists, dicts become association lists looked up by first
occurrence (Python 3.7+ dicts preserve insertion order, as does an
association list).  The external collaborators (LLM completion service,
`json.loads`, vector store) are passed in as explicit function parameters,
mirroring how the source treats them as black boxes.
-/

/-- Convert a Lean string literal to the `List Char` representation. -/
def str (s : String) : List Char := s.data

/-- Decimal rendering of a counter, Python `f"\x7bn\x7d"` / `str(n)`. -/
def natStr (n : Nat) : List Char := (Nat.repr n).data

/-- Python `text.split("\n")`: split on every newline, keeping empty pieces;
`"".split("\n") == [""]`. -/
def splitLines : List Char → List (List Char)
  | [] => [[]]
  | c :: rest =>
    if c = '\n' then [] :: splitLines rest
    else
      match splitLines rest with
      | l :: ls => (c :: l) :: ls
      | [] => [[c]]

/-- Python `"\n".join(lines)`. -/
def joinLines : List (List Char) → List Char
  | [] => []
  | [l] => l
  | l :: ls => l ++ '\n' :: joinLines ls

/-- Python `s.strip()` (whitespace characters as recognised by `Char.isWhitespace`;
the source only ever strips ASCII space/tab/newline in practice). -/
def trim (cs : List Char) : List Char :=
  ((cs.dropWhile Char.isWhitespace).reverse.dropWhile Char.isWhitespace).reverse

/-- Python `s.startswith(pat)` on char lists. -/
def listStartsWith : List Char → List Char → Bool
  | [], _ => true
  | _ :: _, [] => false
  | p :: ps, c :: cs => p == c && listStartsWith ps cs

/-- Python `pat in s` (substring test). -/
def hasSubstring (pat : List Char) : List Char → Bool
  | [] => listStartsWith pat []
  | c :: cs => listStartsWith pat (c :: cs) || hasSubstring pat cs

/-! ## Segmentation engine (parsing.py)

Two copies of `parse_headings` exist in the repository: the superseded
`src/parsing.py` and the current `src/src/core/parsing.py`.  They differ in
exactly one regex: the inner check that ends a regular section.  The current
version uses the raw string pattern of one-or-more hashes followed by
whitespace; the superseded version doubles the backslash inside a raw string,
so its pattern instead demands a literal backslash and the letter s after the
hashes.  Everything else (heading detection, code-fence handling, id
assignment, the no-heading fallback) is identical, so the machinery below is
shared and parameterised by the stop predicate. -/

/-- The per-level heading pattern of `parse_headings`: exactly `L` leading
hash characters followed by at least one whitespace character.  Returns the
raw remainder of the line after the hash marks on a match; the regex capture
group differs from this only by the leading whitespace run, which the strip
applied at section construction removes either way. -/
def headingMatch (L : Nat) (l : List Char) : Option (List Char) :=
  let hs := l.take L
  let rest := l.drop L
  if hs.length == L && hs.all (· == '#') &&
      (rest.head?.map Char.isWhitespace |>.getD false) then
    some rest
  else
    none

/-- The current inner heading check (core `parsing.py` line 143, pattern
one-or-more hashes then whitespace): level of the heading if the line is one. -/
def headingLevel (l : List Char) : Option Nat :=
  let hs := l.takeWhile (· == '#')
  if hs.length > 0 &&
      ((l.drop hs.length).head?.map Char.isWhitespace |>.getD false) then
    some hs.length
  else
    none

/-- Stop predicate of the current version: the line is a heading of depth
at most `L`. -/
def isHeadingLe (L : Nat) (l : List Char) : Bool :=
  match headingLevel l with
  | some k => k ≤ L
  | none => false

/-- The superseded inner heading check (`src/parsing.py` line 90).  Its raw
string doubles the backslash, so the compiled regex demands one-or-more
hashes, then a literal backslash character, then one-or-more letters s. -/
def headingLevelOld (l : List Char) : Option Nat :=
  let hs := l.takeWhile (· == '#')
  if hs.length > 0 then
    match l.drop hs.length with
    | '\\' :: 's' :: _ => some hs.length
    | _ => none
  else none

/-- Stop predicate of the superseded version. -/
def isHeadingLeOld (L : Nat) (l : List Char) : Bool :=
  match headingLevelOld l with
  | some k => k ≤ L
  | none => false

/-- A line that opens or closes a fenced code block:
`current_line.strip().startswith("```")`. -/
def isFence (l : List Char) : Bool :=
  listStartsWith (str "```") (trim l)

/-- Function `is_heading_followed_by_code`, applied to the lines after the heading:
peek past blank lines to the first non-blank line and test whether it opens a
fence; no following non-blank line means false. -/
def followedByCode : List (List Char) → Bool
  | [] => false
  | l :: ls =>
    let t := trim l
    if t.isEmpty then followedByCode ls else listStartsWith (str "```") t

/-- The regular-section accumulation loop: append following lines until one
satisfies the stop predicate (a same-or-shallower heading); that line is left
unconsumed.  Returns (content lines, remaining lines). -/
def collectRegular (stop : List Char → Bool) :
    List (List Char) → List (List Char) × List (List Char)
  | [] => ([], [])
  | l :: ls =>
    if stop l then ([], l :: ls)
    else
      let p := collectRegular stop ls
      (l :: p.1, p.2)

/-- The code-titled accumulation loop: append every line, toggling the
fence state on lines that start with the fence marker; stop right after the
line that closes the fence (that line included).  Returns (content lines,
remaining lines). -/
def collectCode (inBlock : Bool) :
    List (List Char) → List (List Char) × List (List Char)
  | [] => ([], [])
  | l :: ls =>
    if isFence l then
      if inBlock then ([l], ls)
      else
        let p := collectCode true ls
        (l :: p.1, p.2)
    else
      let p := collectCode inBlock ls
      (l :: p.1, p.2)

/-- One emitted section before id assignment: heading capture, content lines,
level. -/
structure RawSec where
  heading : List Char
  content : List (List Char)
  level : Nat
deriving DecidableEq, Repr

/-- One pass of the `while i < len(lines)` scan at depth `L`.  The fuel
argument bounds the recursion (each step consumes at least the heading line,
so `lines.length` fuel is always enough); it makes the function structurally
recursive and hence kernel-evaluable. -/
def scanPassF (stop : List Char → Bool) (L : Nat) :
    Nat → List (List Char) → List RawSec
  | 0, _ => []
  | _, [] => []
  | fuel + 1, l :: ls =>
    match headingMatch L l with
    | none => scanPassF stop L fuel ls
    | some h =>
      if followedByCode ls then
        let p := collectCode false ls
        ⟨h, p.1, L⟩ :: scanPassF stop L fuel p.2
      else
        let p := collectRegular stop ls
        ⟨h, p.1, L⟩ :: scanPassF stop L fuel p.2

/-- A parsed content section, as in the `ContentSection` dataclass (the
`embedding` field is never touched by `parse_headings` and is omitted). -/
structure ContentSection where
  id : List Char
  heading : List Char
  content : List Char
  level : Nat
deriving DecidableEq, Repr

/-- Section construction in emission order: the process-wide counter becomes
the id, the heading capture is stripped, the content lines are joined with
newlines and stripped. -/
def assignIds : Nat → List RawSec → List ContentSection
  | _, [] => []
  | n, r :: rest =>
    ⟨natStr n, trim r.heading, trim (joinLines r.content), r.level⟩ ::
      assignIds (n + 1) rest

/-- The six independent passes, depths 1 to 6, each over all the lines. -/
def rawSecsWith (stopFam : Nat → List Char → Bool) (text : List Char) :
    List RawSec :=
  let lines := splitLines text
  ((List.range 6).map fun k =>
    scanPassF (stopFam (k + 1)) (k + 1) lines.length lines).flatten

/-- Function `parse_headings`, parameterised by the inner stop predicate family: run
the six passes, number the sections in emission order, and fall back to the
single synthetic no-heading section when nothing was found. -/
def parseWith (stopFam : Nat → List Char → Bool) (text : List Char) :
    List ContentSection :=
  if (rawSecsWith stopFam text).isEmpty then
    [⟨str "0", str "<No Heading>", trim text, 0⟩]
  else
    assignIds 0 (rawSecsWith stopFam text)

namespace CoreParsing

/-- Function `parse_headings` of `src/src/core/parsing.py`. -/
def parse_headings (text : List Char) : List ContentSection :=
  parseWith isHeadingLe text

end CoreParsing

namespace SrcParsing

/-- Function `parse_headings` of the superseded `src/parsing.py` (identical except
for the broken inner heading check). -/
def parse_headings (text : List Char) : List ContentSection :=
  parseWith isHeadingLeOld text

end SrcParsing

/-! ## Claim C3: regular section boundaries -/

/-- The regular accumulation loop takes exactly the lines up to (excluding)
the first line satisfying the stop predicate, and leaves the rest. -/
theorem collectRegular_eq (stop : List Char → Bool) (ls : List (List Char)) :
    collectRegular stop ls =
      (ls.takeWhile (fun l => !stop l), ls.dropWhile (fun l => !stop l)) := by
  induction ls with
  | nil => simp [collectRegular]
  | cons l ls ih =>
    by_cases h : stop l <;> simp [collectRegular, List.takeWhile, List.dropWhile, h, ih]

/-- Claim-side description of one scan pass at depth `L`: identical to the
implementation except that a non-code-titled section's content is stated
directly as the lines following the heading up to but excluding the first
subsequent line that is a heading of depth at most `L` (to end of text when
there is none). -/
def scanSpecF (L : Nat) : Nat → List (List Char) → List RawSec
  | 0, _ => []
  | _, [] => []
  | fuel + 1, l :: ls =>
    match headingMatch L l with
    | none => scanSpecF L fuel ls
    | some h =>
      if followedByCode ls then
        let p := collectCode false ls
        ⟨h, p.1, L⟩ :: scanSpecF L fuel p.2
      else
        ⟨h, ls.takeWhile (fun x => !isHeadingLe L x), L⟩ ::
          scanSpecF L fuel (ls.dropWhile (fun x => !isHeadingLe L x))

theorem scanPassF_eq_scanSpecF (L : Nat) :
    ∀ fuel lines, scanPassF (isHeadingLe L) L fuel lines = scanSpecF L fuel lines := by
  intro fuel
  induction fuel with
  | zero => intro lines; simp [scanPassF, scanSpecF]
  | succ fuel ih =>
    intro lines
    cases lines with
    | nil => simp [scanPassF, scanSpecF]
    | cons l ls =>
      simp only [scanPassF, scanSpecF, collectRegular_eq]
      cases headingMatch L l with
      | none => simpa using ih ls
      | some h =>
        by_cases hc : followedByCode ls <;> simp [hc, ih]

/-- Claim-side description of the whole parser, with the claim's wording for
regular section content (see `scanSpecF`); id assignment, code-titled
sections and the no-heading fallback are as in the implementation. -/
def parseHeadingsSpec (text : List Char) : List ContentSection :=
  let lines := splitLines text
  let raw := ((List.range 6).map fun k => scanSpecF (k + 1) lines.length lines).flatten
  if raw.isEmpty then [⟨str "0", str "<No Heading>", trim text, 0⟩]
  else assignIds 0 raw

/-- C3: in the current `parse_headings`, every non-code-titled section's
content consists of exactly the lines following its heading line up to but
excluding the first subsequent heading of depth at most `L` (to end of text
when there is none), joined with newlines and stripped; the terminating
same-or-shallower heading line is never part of the content.  Stated as:
the parser coincides with the claim-side parser `parseHeadingsSpec`, whose
regular sections are defined exactly by that description. -/
theorem c3_regular_section_boundaries (text : List Char) :
    CoreParsing.parse_headings text = parseHeadingsSpec text := by
  simp only [CoreParsing.parse_headings, parseWith, rawSecsWith, parseHeadingsSpec,
    scanPassF_eq_scanSpecF]

/-! ## Claim C4: code-titled sections end at the closing fence -/

/-- Index (within the lines after the heading) of the line that closes the
fence: the first fence line opens the block, and the next fence-marker line
after it closes it. -/
def closingFenceIdx (ls : List (List Char)) : Nat :=
  let i := ls.findIdx isFence
  i + 1 + (ls.drop (i + 1)).findIdx isFence

theorem any_of_one_le_filter_length {p : List Char → Bool}
    {ls : List (List Char)} (h : 1 ≤ (ls.filter p).length) : ls.any p = true := by
  induction ls with
  | nil => simp at h
  | cons l ls ih =>
    by_cases hl : p l
    · simp [hl]
    · simp only [List.filter_cons, hl] at h
      simp [hl, ih h]

theorem findIdx_mem_spec {p : List Char → Bool} :
    ∀ ls : List (List Char), ls.any p = true →
      ∃ x, ls[ls.findIdx p]? = some x ∧ p x = true := by
  intro ls
  induction ls with
  | nil => simp
  | cons l ls ih =>
    intro h
    by_cases hl : p l
    · exact ⟨l, by simp [List.findIdx_cons, hl], hl⟩
    · simp only [List.any_cons, hl, Bool.false_or] at h
      obtain ⟨x, hx, hpx⟩ := ih h
      exact ⟨x, by simp [List.findIdx_cons, hl, hx], hpx⟩

theorem collectCode_true_eq :
    ∀ ls : List (List Char), ls.any isFence = true →
      collectCode true ls =
        (ls.take (ls.findIdx isFence + 1), ls.drop (ls.findIdx isFence + 1)) := by
  intro ls
  induction ls with
  | nil => simp
  | cons l ls ih =>
    intro h
    by_cases hl : isFence l
    · simp [collectCode, hl, List.findIdx_cons]
    · simp only [List.any_cons, hl, Bool.false_or] at h
      simp [collectCode, hl, List.findIdx_cons, ih h]

theorem collectCode_false_eq :
    ∀ ls : List (List Char), 2 ≤ (ls.filter isFence).length →
      collectCode false ls =
        (ls.take (closingFenceIdx ls + 1), ls.drop (closingFenceIdx ls + 1)) := by
  intro ls
  induction ls with
  | nil => simp at *
  | cons l ls ih =>
    intro h
    by_cases hl : isFence l
    · have hany : ls.any isFence = true := by
        simp only [List.filter_cons, hl, if_pos, List.length_cons] at h
        exact any_of_one_le_filter_length (Nat.le_of_succ_le_succ h)
      have hc : closingFenceIdx (l :: ls) = ls.findIdx isFence + 1 := by
        simp [closingFenceIdx, List.findIdx_cons, hl, Nat.add_comm]
      simp [collectCode, hl, hc, collectCode_true_eq ls hany,
        List.take_succ_cons, List.drop_succ_cons]
    · simp only [List.filter_cons, hl] at h
      have hc : closingFenceIdx (l :: ls) = closingFenceIdx ls + 1 := by
        simp [closingFenceIdx, List.findIdx_cons, hl, List.drop_succ_cons]
        omega
      simp [collectCode, hl, hc, ih (by simpa using h),
        List.take_succ_cons, List.drop_succ_cons]

theorem closingFence_is_fence :
    ∀ ls : List (List Char), 2 ≤ (ls.filter isFence).length →
      ∃ fl, ls[closingFenceIdx ls]? = some fl ∧ isFence fl = true := by
  intro ls
  induction ls with
  | nil => simp at *
  | cons l ls ih =>
    intro h
    by_cases hl : isFence l
    · have hany : ls.any isFence = true := by
        simp only [List.filter_cons, hl, if_pos, List.length_cons] at h
        exact any_of_one_le_filter_length (Nat.le_of_succ_le_succ h)
      have hc : closingFenceIdx (l :: ls) = ls.findIdx isFence + 1 := by
        simp [closingFenceIdx, List.findIdx_cons, hl, Nat.add_comm]
      obtain ⟨x, hx, hpx⟩ := findIdx_mem_spec ls hany
      exact ⟨x, by simp [hc, hx], hpx⟩
    · have hc : closingFenceIdx (l :: ls) = closingFenceIdx ls + 1 := by
        simp [closingFenceIdx, List.findIdx_cons, hl, List.drop_succ_cons]
        omega
      obtain ⟨x, hx, hpx⟩ := ih (by simpa [List.filter_cons, hl] using h)
      exact ⟨x, by simp [hc, hx], hpx⟩

/-- C4: when a heading's first following non-blank line opens a fenced code
block (`followedByCode`), and the fence does close (at least two
fence-marker lines follow the heading), the emitted section's content is
exactly the lines from the heading's successor through the line that closes
the fence — `rest.take (closingFenceIdx rest + 1)`, which includes the
closing fence line at index `closingFenceIdx rest` and nothing after it —
and the scan resumes right after that line.  Stated for any stop predicate,
so it covers both copies of `parse_headings`. -/
theorem c4_code_titled_fence (stop : List Char → Bool) (L fuel : Nat)
    (hl : List Char) (rest : List (List Char)) (h : List Char)
    (hm : headingMatch L hl = some h)
    (hcode : followedByCode rest = true)
    (hfence : 2 ≤ (rest.filter isFence).length) :
    scanPassF stop L (fuel + 1) (hl :: rest) =
      ⟨h, rest.take (closingFenceIdx rest + 1), L⟩ ::
        scanPassF stop L fuel (rest.drop (closingFenceIdx rest + 1)) ∧
    ∃ fl, rest[closingFenceIdx rest]? = some fl ∧ isFence fl = true := by
  constructor
  · simp [scanPassF, hm, hcode, collectCode_false_eq rest hfence]
  · exact closingFence_is_fence rest hfence

theorem c4_code_titled_fence_witness :
    (headingMatch 1 (str "# Example") = some (str " Example") ∧
     followedByCode [str "```bash", str "echo hi", str "```", str "# After", str "tail"] = true ∧
     2 ≤ ([str "```bash", str "echo hi", str "```", str "# After", str "tail"].filter isFence).length) ∧
    (scanPassF (isHeadingLe 1) 1 5
        (str "# Example" :: [str "```bash", str "echo hi", str "```", str "# After", str "tail"]) =
      ⟨str " Example",
        [str "```bash", str "echo hi", str "```", str "# After", str "tail"].take
          (closingFenceIdx [str "```bash", str "echo hi", str "```", str "# After", str "tail"] + 1), 1⟩ ::
        scanPassF (isHeadingLe 1) 1 4
          ([str "```bash", str "echo hi", str "```", str "# After", str "tail"].drop
            (closingFenceIdx [str "```bash", str "echo hi", str "```", str "# After", str "tail"] + 1)) ∧
     ∃ fl, [str "```bash", str "echo hi", str "```", str "# After", str "tail"][closingFenceIdx
        [str "```bash", str "echo hi", str "```", str "# After", str "tail"]]? = some fl ∧
        isFence fl = true) :=
  ⟨⟨by decide, by decide, by decide⟩,
   c4_code_titled_fence (isHeadingLe 1) 1 4 (str "# Example")
     [str "```bash", str "echo hi", str "```", str "# After", str "tail"]
     (str " Example") (by decide) (by decide) (by decide)⟩

/-! ## Claim C5: the no-heading fallback -/

/-- No line of the text matches the heading pattern at any depth 1..6. -/
def noHeadingText (text : List Char) : Bool :=
  (splitLines text).all fun l =>
    (List.range 6).all fun k => (headingMatch (k + 1) l).isNone

theorem scanPassF_eq_nil_of_no_heading (stop : List Char → Bool) (L : Nat) :
    ∀ (fuel : Nat) (lines : List (List Char)),
      (∀ l ∈ lines, headingMatch L l = none) →
      scanPassF stop L fuel lines = [] := by
  intro fuel
  induction fuel with
  | zero => intro lines _; simp [scanPassF]
  | succ fuel ih =>
    intro lines hno
    cases lines with
    | nil => simp [scanPassF]
    | cons l ls =>
      have hl : headingMatch L l = none := hno l (by simp)
      simp only [scanPassF, hl]
      exact ih ls fun x hx => hno x (by simp [hx])

/-- C5: when no line of the body matches a heading pattern at any depth 1
through 6, `parse_headings` returns exactly one section with id `"0"`,
heading `"<No Heading>"`, level 0, and content equal to the stripped input. -/
theorem c5_no_heading_fallback (text : List Char)
    (h : noHeadingText text = true) :
    CoreParsing.parse_headings text =
      [⟨str "0", str "<No Heading>", trim text, 0⟩] := by
  have hraw : rawSecsWith isHeadingLe text = [] := by
    simp only [rawSecsWith, List.flatten_eq_nil_iff]
    intro pass hpass
    simp only [List.mem_map, List.mem_range] at hpass
    obtain ⟨k, _, rfl⟩ := hpass
    refine scanPassF_eq_nil_of_no_heading _ _ _ _ fun l hl => ?_
    have := (List.all_eq_true.mp h) l hl
    have hk := (List.all_eq_true.mp this) k (by simpa)
    simpa [Option.isNone_iff_eq_none] using hk
  simp [CoreParsing.parse_headings, parseWith, hraw]

theorem c5_no_heading_fallback_witness :
    noHeadingText (str "just some text\nno markers here") = true ∧
    CoreParsing.parse_headings (str "just some text\nno markers here") =
      [⟨str "0", str "<No Heading>", trim (str "just some text\nno markers here"), 0⟩] :=
  ⟨by decide, c5_no_heading_fallback _ (by decide)⟩

/-! ## Claim C10: output grouped by level, ids are emission ordinals -/

theorem scanPassF_level_eq (stop : List Char → Bool) (L : Nat) :
    ∀ (fuel : Nat) (lines : List (List Char)) (s : RawSec),
      s ∈ scanPassF stop L fuel lines → s.level = L := by
  intro fuel
  induction fuel with
  | zero => intro lines s hs; simp [scanPassF] at hs
  | succ fuel ih =>
    intro lines s hs
    cases lines with
    | nil => simp [scanPassF] at hs
    | cons l ls =>
      simp only [scanPassF] at hs
      cases hm : headingMatch L l with
      | none => rw [hm] at hs; exact ih ls s hs
      | some h =>
        rw [hm] at hs
        by_cases hc : followedByCode ls <;> simp only [hc, if_pos, if_neg, Bool.false_eq_true] at hs <;>
          rcases List.mem_cons.mp hs with rfl | hmem <;>
          first | rfl | exact ih _ s hmem

theorem assignIds_map_level : ∀ (rs : List RawSec) (n : Nat),
    (assignIds n rs).map ContentSection.level = rs.map RawSec.level := by
  intro rs
  induction rs with
  | nil => intro n; simp [assignIds]
  | cons r rs ih => intro n; simp [assignIds, ih]

theorem assignIds_map_id : ∀ (rs : List RawSec) (n : Nat),
    (assignIds n rs).map ContentSection.id = (List.range' n rs.length).map natStr := by
  intro rs
  induction rs with
  | nil => intro n; simp [assignIds]
  | cons r rs ih => intro n; simp [assignIds, List.range'_succ, ih]

theorem assignIds_length : ∀ (rs : List RawSec) (n : Nat),
    (assignIds n rs).length = rs.length := by
  intro rs
  induction rs with
  | nil => intro n; simp [assignIds]
  | cons r rs ih => intro n; simp [assignIds, ih]

theorem rawSecs_levels_sorted (text : List Char) :
    (rawSecsWith isHeadingLe text).Pairwise fun a b => a.level ≤ b.level := by
  rw [rawSecsWith, List.pairwise_flatten]
  constructor
  · intro pass hpass
    simp only [List.mem_map, List.mem_range] at hpass
    obtain ⟨k, _, rfl⟩ := hpass
    refine List.pairwise_of_forall_mem_list fun a ha b hb => ?_
    rw [scanPassF_level_eq _ _ _ _ a ha, scanPassF_level_eq _ _ _ _ b hb]
  · rw [List.pairwise_map]
    refine (List.pairwise_lt_range 6).imp fun hk a ha b hb => ?_
    rename_i k1 k2
    rw [scanPassF_level_eq _ _ _ _ a ha, scanPassF_level_eq _ _ _ _ b hb]
    omega

/-- C10: whenever `parse_headings` finds at least one heading, the returned
sections are grouped by level — levels are nondecreasing along the list, so
every section of a shallower level precedes every section of a deeper level
even when the deeper heading occurs earlier in the document — and the id of
the k-th returned section is the decimal string of k. -/
theorem c10_grouped_levels_and_ids (text : List Char)
    (h : (rawSecsWith isHeadingLe text).isEmpty = false) :
    (CoreParsing.parse_headings text).Pairwise (fun a b => a.level ≤ b.level) ∧
    (CoreParsing.parse_headings text).map ContentSection.id =
      (List.range (CoreParsing.parse_headings text).length).map natStr := by
  have hp : CoreParsing.parse_headings text = assignIds 0 (rawSecsWith isHeadingLe text) := by
    simp [CoreParsing.parse_headings, parseWith, h]
  constructor
  · rw [hp]
    have := rawSecs_levels_sorted text
    have hmap : List.Pairwise (fun a b : Nat => a ≤ b)
        ((assignIds 0 (rawSecsWith isHeadingLe text)).map ContentSection.level) := by
      rw [assignIds_map_level, List.pairwise_map]
      exact this.imp fun hab => hab
    rw [List.pairwise_map] at hmap
    exact hmap.imp fun hab => hab
  · rw [hp, assignIds_map_id, assignIds_length, List.range_eq_range']

theorem c10_grouped_levels_and_ids_witness :
    (rawSecsWith isHeadingLe (str "## Deep first\n# Shallow later\ntail")).isEmpty = false ∧
    ((CoreParsing.parse_headings (str "## Deep first\n# Shallow later\ntail")).Pairwise
        (fun a b => a.level ≤ b.level) ∧
      (CoreParsing.parse_headings (str "## Deep first\n# Shallow later\ntail")).map
          ContentSection.id =
        (List.range (CoreParsing.parse_headings
          (str "## Deep first\n# Shallow later\ntail")).length).map natStr) :=
  ⟨by decide, c10_grouped_levels_and_ids _ (by decide)⟩

/-! ## Claim C9: the superseded and current parsers disagree -/

/-- C9: the superseded `src/parsing.py` `parse_headings` and the current
`src/src/core/parsing.py` `parse_headings` do not return equal section lists.
On `"# A\nx\n# B\ny"` the superseded version's inner stop regex (whose raw
string doubles the backslash and therefore matches a literal backslash, never
a heading) fails to end the first section, which swallows the second heading
into the first section's content; the current version emits two sections. -/
theorem c9_two_parsers_disagree :
    SrcParsing.parse_headings (str "# A\nx\n# B\ny") =
      [⟨str "0", str "A", str "x\n# B\ny", 1⟩] ∧
    CoreParsing.parse_headings (str "# A\nx\n# B\ny") =
      [⟨str "0", str "A", str "x", 1⟩, ⟨str "1", str "B", str "y", 1⟩] ∧
    SrcParsing.parse_headings (str "# A\nx\n# B\ny") ≠
      CoreParsing.parse_headings (str "# A\nx\n# B\ny") := by
  refine ⟨by decide, by decide, by decide⟩

/-! ## Retrieval orchestrator (src/src/core/retriever.py)

The vector store and the LangChain document type are external collaborators:
a document is its page content plus a metadata dict, and the store is a pair
of functions (semantic search, metadata scan) supplied by the caller.  JSON
scalar values in metadata dicts are modelled by `JVal`; the packaged result
dicts additionally hold Python `None`, list and nested-dict values (`PVal`).
The query plan dict is modelled by a record with the four fields every plan
carries. -/

/-- A scalar metadata value. -/
inductive JVal where
  | s (v : List Char)
  | i (n : Int)
  | b (v : Bool)
  | null
deriving DecidableEq, Repr, Inhabited

/-- A metadata dict: association list, first occurrence wins. -/
abbrev Metadata := List (List Char × JVal)

/-- Python `metadata.get(k)`. -/
def mget (m : Metadata) (k : List Char) : Option JVal :=
  (m.find? fun kv => kv.1 == k).map (·.2)

/-- A LangChain document as the retriever sees it. -/
structure Doc where
  page_content : List Char
  metadata : Metadata
deriving DecidableEq, Repr

/-- One entry of the plan's `filters` list. -/
structure QFilter where
  field : List Char
  operator : List Char
  value : JVal
deriving DecidableEq, Repr

/-- A query plan dict (`semantic_search_needed`, `semantic_query`,
`filters`, `response_format`). -/
structure QueryPlan where
  semantic_search_needed : Bool
  semantic_query : List Char
  filters : List QFilter
  response_format : List Char
deriving DecidableEq, Repr

/-- The ChromaDB `where` dict built by `_build_where_filter`: empty, a
single field condition, or a conjunction of conditions. -/
inductive ChromaWhere where
  | empty
  | single (f op : List Char) (v : JVal)
  | andOf (cs : List (List Char × List Char × JVal))
deriving DecidableEq, Repr

/-- Function `_build_where_filter`: no filters gives the empty dict, one filter a
single condition, several an `$and` of the conditions. -/
def build_where_filter : List QFilter → ChromaWhere
  | [] => .empty
  | [f] => .single f.field f.operator f.value
  | fs => .andOf (fs.map fun f => (f.field, f.operator, f.value))

/-- Step `where_filter if where_filter else None` in `retrieve_context`: the
empty (falsy) dict becomes `None`. -/
def processedFilter (fs : List QFilter) : Option ChromaWhere :=
  if build_where_filter fs = .empty then none else some (build_where_filter fs)

/-- The vector store manager: `search_documents(query, k, filter_dict)` and
`get_documents_by_metadata(filter_dict, limit)`, both external. -/
structure VectorManager where
  search_documents : List Char → Nat → Option ChromaWhere → List Doc
  get_documents_by_metadata : Option ChromaWhere → Nat → List Doc

/-- The internal section format both branches of `retrieve_context` build
from a document: `id` defaults to the decimal document index when metadata
has no `id` key, `document` is the page content, `metadata` is kept whole. -/
structure RetrievedSection where
  id : JVal
  document : Option (List Char)
  metadata : Metadata
deriving DecidableEq, Repr

def convertDoc (idx : Nat) (d : Doc) : RetrievedSection :=
  { id := (mget d.metadata (str "id")).getD (.s (natStr idx))
    document := some d.page_content
    metadata := d.metadata }

/-- The `for doc_idx, doc in enumerate(docs)` conversion loop. -/
def convertDocs (docs : List Doc) : List RetrievedSection :=
  docs.enum.map fun p => convertDoc p.1 p.2

/-- A value of a packaged result dict: a scalar, Python `None`, a list
(the `[]` default for tags), or the whole metadata dict. -/
inductive PVal where
  | j (v : JVal)
  | pnone
  | list (vs : List JVal)
  | dict (m : Metadata)
deriving DecidableEq, Repr, Inhabited

/-- A packaged result dict, keys in insertion order. -/
abbrev PackagedResult := List (List Char × PVal)

/-- Dict lookup on a packaged result. -/
def plookup (r : PackagedResult) (k : List Char) : Option PVal :=
  (r.find? fun kv => kv.1 == k).map (·.2)

def optToP : Option JVal → PVal
  | some v => .j v
  | none => .pnone

/-- One result of `_package_metadata_only`: keys `id, title, heading, tags`
in that order; `tags` defaults to the empty list; no `content` key. -/
def packOneMeta (s : RetrievedSection) : PackagedResult :=
  [(str "id", .j s.id),
   (str "title", optToP (mget s.metadata (str "title"))),
   (str "heading", optToP (mget s.metadata (str "heading"))),
   (str "tags", match mget s.metadata (str "tags") with
     | some v => .j v
     | none => .list [])]

/-- One result of `_package_selective_context`: keys `id, title, content,
metadata` in that order; `content` is the section's document. -/
def packOneSel (s : RetrievedSection) : PackagedResult :=
  [(str "id", .j s.id),
   (str "title", optToP (mget s.metadata (str "title"))),
   (str "content", match s.document with
     | some d => .j (.s d)
     | none => .pnone),
   (str "metadata", .dict s.metadata)]

/-- The `results` wrapper dict returned by the packaging functions. -/
structure ContextPackage where
  results : List PackagedResult
deriving DecidableEq, Repr

def package_metadata_only (secs : List RetrievedSection) : ContextPackage :=
  ⟨secs.map packOneMeta⟩

def package_selective_context (secs : List RetrievedSection) : ContextPackage :=
  ⟨secs.map packOneSel⟩

/-- Format dispatch at the end of `retrieve_context`: anything other than
`selective_context` (including the `metadata_only` default) packages
metadata-only. -/
def packOne (fmt : List Char) (s : RetrievedSection) : PackagedResult :=
  if fmt == str "selective_context" then packOneSel s else packOneMeta s

/-- Function `retrieve_context` of `src/src/core/retriever.py`: build and normalise
the where filter, run the semantic search (cap 20) or the metadata scan
(cap 100), convert the returned documents one-for-one, and package by
response format.  Note the semantic branch applies no deduplication: the
module's `_deduplicate_query_results` is never called. -/
def retrieve_context (plan : QueryPlan) (vm : VectorManager) : ContextPackage :=
  let wf := processedFilter plan.filters
  let secs :=
    if plan.semantic_search_needed then
      convertDocs (vm.search_documents plan.semantic_query 20 wf)
    else
      convertDocs (vm.get_documents_by_metadata wf 100)
  if plan.response_format == str "selective_context" then
    package_selective_context secs
  else
    package_metadata_only secs

/-! ## Claim C6: the metadata branch applies no deduplication -/

/-- C6: for every plan with `semantic_search_needed` false, the orchestrator
packages exactly the documents the metadata scan (cap 100) returned, one
result per document in scan order — no deduplication, so several sections of
the same note all survive; in particular the output length equals the scan's
length. -/
theorem c6_metadata_no_dedup (plan : QueryPlan) (vm : VectorManager)
    (h : plan.semantic_search_needed = false) :
    (retrieve_context plan vm).results =
      (convertDocs (vm.get_documents_by_metadata (processedFilter plan.filters) 100)).map
        (packOne plan.response_format) ∧
    (retrieve_context plan vm).results.length =
      (vm.get_documents_by_metadata (processedFilter plan.filters) 100).length := by
  have hres : (retrieve_context plan vm).results =
      (convertDocs (vm.get_documents_by_metadata (processedFilter plan.filters) 100)).map
        (packOne plan.response_format) := by
    by_cases hf : plan.response_format == str "selective_context" <;>
      simp [retrieve_context, h, hf, packOne, package_metadata_only,
        package_selective_context]
  refine ⟨hres, ?_⟩
  rw [hres]
  simp [convertDocs]

/-- Inputs for the C6 witness: a metadata-only plan and a store whose scan
returns three sections that all belong to the same note. -/
def c6demoPlan : QueryPlan := ⟨false, str "", [], str "selective_context"⟩

def c6demoDocs : List Doc :=
  [⟨str "s1", [(str "file_path", JVal.s (str "a.md"))]⟩,
   ⟨str "s2", [(str "file_path", JVal.s (str "a.md"))]⟩,
   ⟨str "s3", [(str "file_path", JVal.s (str "a.md"))]⟩]

def c6demoVM : VectorManager := ⟨fun _ _ _ => [], fun _ _ => c6demoDocs⟩

theorem c6_metadata_no_dedup_witness :
    c6demoPlan.semantic_search_needed = false ∧
    ((retrieve_context c6demoPlan c6demoVM).results =
      (convertDocs (c6demoVM.get_documents_by_metadata
          (processedFilter c6demoPlan.filters) 100)).map
        (packOne c6demoPlan.response_format) ∧
     (retrieve_context c6demoPlan c6demoVM).results.length =
      (c6demoVM.get_documents_by_metadata
          (processedFilter c6demoPlan.filters) 100).length) :=
  ⟨rfl, c6_metadata_no_dedup c6demoPlan c6demoVM rfl⟩

/-! ## Claim C7: packaging shapes -/

/-- C7: for every list of retrieved sections (each carrying a document
string, as both branches of `retrieve_context` produce), metadata-only
packaging yields per section a dict with exactly the keys
`id, title, heading, tags` and no `content` key, selective-context packaging
yields per section exactly the keys `id, title, content, metadata` with a
non-null `content` value, and the empty input packages to empty results
under both formats. -/
theorem c7_packaging_shapes (secs : List RetrievedSection)
    (h : (secs.all fun s => s.document.isSome) = true) :
    (∀ r ∈ (package_metadata_only secs).results,
        r.map Prod.fst = [str "id", str "title", str "heading", str "tags"] ∧
        plookup r (str "content") = none) ∧
    (∀ r ∈ (package_selective_context secs).results,
        r.map Prod.fst = [str "id", str "title", str "content", str "metadata"] ∧
        ∃ v, plookup r (str "content") = some v ∧ v ≠ PVal.pnone) ∧
    (package_metadata_only []).results = [] ∧
    (package_selective_context []).results = [] := by
  refine ⟨?_, ?_, rfl, rfl⟩
  · intro r hr
    obtain ⟨s, _, rfl⟩ := List.mem_map.mp hr
    exact ⟨rfl, rfl⟩
  · intro r hr
    obtain ⟨s, hs, rfl⟩ := List.mem_map.mp hr
    have hd : s.document.isSome = true := (List.all_eq_true.mp h) s hs
    obtain ⟨d, hd⟩ := Option.isSome_iff_exists.mp hd
    refine ⟨rfl, PVal.j (JVal.s d), ?_, fun hcon => PVal.noConfusion hcon⟩
    have hstep : plookup (packOneSel s) (str "content") =
        some (match s.document with
          | some d => PVal.j (JVal.s d)
          | none => PVal.pnone) := rfl
    rw [hstep, hd]

/-- Input for the C7 witness: one retrieved section with a document. -/
def c7demoSecs : List RetrievedSection :=
  [⟨JVal.s (str "a-md-0"), some (str "body text"), [(str "title", JVal.s (str "A"))]⟩]

theorem c7_packaging_shapes_witness :
    (c7demoSecs.all fun s => s.document.isSome) = true ∧
    ((∀ r ∈ (package_metadata_only c7demoSecs).results,
        r.map Prod.fst = [str "id", str "title", str "heading", str "tags"] ∧
        plookup r (str "content") = none) ∧
     (∀ r ∈ (package_selective_context c7demoSecs).results,
        r.map Prod.fst = [str "id", str "title", str "content", str "metadata"] ∧
        ∃ v, plookup r (str "content") = some v ∧ v ≠ PVal.pnone) ∧
     (package_metadata_only []).results = [] ∧
     (package_selective_context []).results = []) :=
  ⟨rfl, c7_packaging_shapes c7demoSecs rfl⟩

/-! ## Claim C2: the semantic branch and deduplication -/

/-- Inputs exhibiting the missing deduplication: a semantic plan and a store
whose (pre-ranked) semantic search returns two sections owned by the same
note path `a.md`. -/
def c2demoPlan : QueryPlan := ⟨true, str "query text", [], str "selective_context"⟩

def c2demoDocs : List Doc :=
  [⟨str "alpha one", [(str "id", JVal.s (str "x1")), (str "file_path", JVal.s (str "a.md"))]⟩,
   ⟨str "alpha two", [(str "id", JVal.s (str "x2")), (str "file_path", JVal.s (str "a.md"))]⟩]

def c2demoVM : VectorManager := ⟨fun _ _ _ => c2demoDocs, fun _ _ => []⟩

/-- C2 (bug evaluation): `retrieve_context` of `src/src/core/retriever.py`
packages both semantic hits that belong to the same owning note path, so its
output is not one item per distinct path.  The file's own
`_deduplicate_query_results` (which would keep only the first hit per path)
is defined but never called by `retrieve_context`; the superseded
`src/retriever.py` orchestrator does call it. -/
theorem c2_semantic_no_dedup_bug :
    (retrieve_context c2demoPlan c2demoVM).results.length = 2 ∧
    ((retrieve_context c2demoPlan c2demoVM).results.all fun r =>
      match plookup r (str "metadata") with
      | some (.dict m) => mget m (str "file_path") == some (JVal.s (str "a.md"))
      | _ => false) = true := by
  exact ⟨rfl, rfl⟩

/-! ## Query planner (src/src/core/query_planner.py)

`deconstruct_query` calls two external collaborators: the completion service
(modelled as a function from the attempt number to either an API-level
failure, Python's generic `except Exception` branch, or a returned content
string) and `json.loads` (modelled as an oracle from a string to an optional
parsed object; `none` is a `JSONDecodeError`).  A parsed JSON plan object is
a dict modelled like the packaged result dicts. -/

/-- A parsed JSON object (the planner only ever treats parses as dicts). -/
abbrev JObj := List (List Char × PVal)

/-- Outcome of one completion attempt. -/
inductive SvcResult where
  | apiErr
  | content (s : List Char)
deriving DecidableEq, Repr

/-- What a call of `deconstruct_query` does: return a plan dict, return
Python `None`, or raise `RuntimeError`. -/
inductive DQResult where
  | plan (p : JObj)
  | retNone
  | raised
deriving DecidableEq, Repr

def lbrace : Char := Char.ofNat 123

def rbrace : Char := Char.ofNat 125

/-- Scanner for the regex of one open brace, then brace-free text, then one
close brace: leftmost-first minimal spans, resuming after each match, with a
fresh start at any nested open brace (exactly the matches `re.findall`
produces for that pattern, in order).  The first argument is the currently
open candidate (accumulated characters, reversed). -/
def braceSpansAux : Option (List Char) → List Char → List (List Char)
  | _, [] => []
  | none, c :: cs =>
    if c == lbrace then braceSpansAux (some []) cs
    else braceSpansAux none cs
  | some acc, c :: cs =>
    if c == rbrace then (lbrace :: acc.reverse ++ [rbrace]) :: braceSpansAux none cs
    else if c == lbrace then braceSpansAux (some []) cs
    else braceSpansAux (some (c :: acc)) cs

def braceSpans (s : List Char) : List (List Char) := braceSpansAux none s

/-- The three keys `_manual_json_parse` requires of a candidate object. -/
def requiredKeysPresent (p : JObj) : Bool :=
  (plookup p (str "semantic_search_needed")).isSome &&
  (plookup p (str "filters")).isSome &&
  (plookup p (str "response_format")).isSome

/-- Assignment `parsed["semantic_query"] = ""` when the key is absent. -/
def fillSemanticQuery (p : JObj) : JObj :=
  if (plookup p (str "semantic_query")).isSome then p
  else p ++ [(str "semantic_query", PVal.j (JVal.s []))]

/-- The default fallback plan `_manual_json_parse` returns when no JSON
object can be extracted: semantic search needed, the stripped raw model
output as the semantic query, no filters, selective context. -/
def defaultPlanObj (content : List Char) : JObj :=
  [(str "semantic_search_needed", PVal.j (JVal.b true)),
   (str "semantic_query", PVal.j (JVal.s (trim content))),
   (str "filters", PVal.list []),
   (str "response_format", PVal.j (JVal.s (str "selective_context")))]

/-- Function `_manual_json_parse`: search the stripped content for a brace span
containing the quoted key `semantic_search_needed`, else one containing
`semantic_query`; without such a span, try every brace span in order and
accept the first that parses with the required keys; a found span that fails
to parse or lacks the keys, like no usable span at all, yields the default
fallback plan.  Never raises and never returns a falsy value. -/
def manual_json_parse (jp : List Char → Option JObj) (content : List Char) : JObj :=
  let stripped := trim content
  let spans := braceSpans stripped
  let m :=
    match spans.find? (fun sp => hasSubstring (str "\"semantic_search_needed\"") sp) with
    | some sp => some sp
    | none => spans.find? (fun sp => hasSubstring (str "\"semantic_query\"") sp)
  match m with
  | some sp =>
    match jp sp with
    | some parsed =>
      if requiredKeysPresent parsed then fillSemanticQuery parsed
      else defaultPlanObj content
    | none => defaultPlanObj content
  | none =>
    match spans.findSome? (fun sp =>
        match jp sp with
        | some parsed =>
          if requiredKeysPresent parsed then some (fillSemanticQuery parsed)
          else none
        | none => none) with
    | some p => p
    | none => defaultPlanObj content

/-- The `for attempt in range(max_retries)` loop of `deconstruct_query`:
an API-level failure moves to the next attempt; returned content that parses
is returned as the plan as-is; content that fails `json.loads` goes through
`_manual_json_parse`, whose (always truthy) result is returned immediately;
exhausting the attempts raises `RuntimeError`. -/
def attemptLoop (svc : Nat → SvcResult) (jp : List Char → Option JObj) :
    Nat → Nat → DQResult
  | _, 0 => .raised
  | attempt, rem + 1 =>
    match svc attempt with
    | .apiErr => attemptLoop svc jp (attempt + 1) rem
    | .content s =>
      match jp s with
      | some plan => .plan plan
      | none => .plan (manual_json_parse jp s)

/-- Function `deconstruct_query` of `src/src/core/query_planner.py`: a whitespace-only
user query returns Python `None` before any completion call; otherwise run
the retry loop. -/
def deconstruct_query (user_query : List Char) (svc : Nat → SvcResult)
    (jp : List Char → Option JObj) (max_retries : Nat := 3) : DQResult :=
  if (trim user_query).isEmpty then .retNone
  else attemptLoop svc jp 0 max_retries

/-! ## Claim C8: whitespace-only queries -/

/-- C8 (bug evaluation): a whitespace-only user query makes
`deconstruct_query` return Python `None` — not a plan dict — before any
completion call (the result does not depend on the completion service or on
the JSON parser, which is why both are universally quantified) and without
raising.  The repo's own unit test expects a plan dict with the standard
keys here. -/
theorem c8_empty_query_returns_none (uq : List Char) (svc : Nat → SvcResult)
    (jp : List Char → Option JObj) (n : Nat) (h : trim uq = []) :
    deconstruct_query uq svc jp n = .retNone := by
  simp [deconstruct_query, h]

theorem c8_empty_query_returns_none_witness :
    trim (str "   ") = [] ∧
    deconstruct_query (str "   ") (fun _ => .apiErr) (fun _ => none) 3 = .retNone :=
  ⟨by decide, c8_empty_query_returns_none (str "   ") (fun _ => .apiErr)
    (fun _ => none) 3 (by decide)⟩

/-! ## Claim C1: behaviour when planning fails -/

/-- C1 counterexample: with user query `"find my notes about rust"` and a
service whose output `"I cannot produce JSON"` is unparseable on every
attempt, `deconstruct_query` returns (already on the first attempt) the
fallback plan whose `semantic_query` is the raw model output — not the
original user text, as the claim states. -/
theorem c1_counterexample :
    deconstruct_query (str "find my notes about rust")
        (fun _ => .content (str "I cannot produce JSON")) (fun _ => none) 3 =
      .plan (defaultPlanObj (str "I cannot produce JSON")) ∧
    plookup (defaultPlanObj (str "I cannot produce JSON")) (str "semantic_query") =
      some (PVal.j (JVal.s (str "I cannot produce JSON"))) ∧
    str "I cannot produce JSON" ≠ str "find my notes about rust" :=
  ⟨rfl, rfl, by decide⟩

/-- C1 amended: (a) when the service returns content that fails JSON parsing
and contains no brace-delimited object at all, `deconstruct_query` returns —
already on the first such attempt, without raising — the default fallback
plan, whose `semantic_query` is the stripped raw model output rather than
the original user text; (b) when every attempt fails at the API-call level,
`deconstruct_query` raises `RuntimeError` after the retry maximum instead of
falling back. -/
theorem c1_amended_fallback_and_raise :
    (∀ (uq : List Char) (svc : Nat → SvcResult) (jp : List Char → Option JObj)
        (content : List Char),
      trim uq ≠ [] → svc 0 = .content content → jp content = none →
      braceSpans (trim content) = [] →
      deconstruct_query uq svc jp 3 = .plan (defaultPlanObj content)) ∧
    (∀ (uq : List Char) (svc : Nat → SvcResult) (jp : List Char → Option JObj),
      trim uq ≠ [] → (∀ n, svc n = .apiErr) →
      deconstruct_query uq svc jp 3 = .raised) := by
  constructor
  · intro uq svc jp content hne hsvc hjp hbr
    have hie : ¬((trim uq).isEmpty = true) := fun hcon => hne (List.isEmpty_iff.mp hcon)
    simp only [deconstruct_query, if_neg hie]
    have hloop : attemptLoop svc jp 0 3 = .plan (manual_json_parse jp content) := by
      simp [attemptLoop, hsvc, hjp]
    rw [hloop]
    simp [manual_json_parse, hbr]
  · intro uq svc jp hne hsvc
    have hie : ¬((trim uq).isEmpty = true) := fun hcon => hne (List.isEmpty_iff.mp hcon)
    simp only [deconstruct_query, if_neg hie]
    simp [attemptLoop, hsvc]

theorem c1_amended_fallback_and_raise_witness :
    (trim (str "what did I write") ≠ [] ∧
     (fun _ : Nat => SvcResult.content (str "no braces here")) 0 =
       .content (str "no braces here") ∧
     (fun _ : List Char => (none : Option JObj)) (str "no braces here") = none ∧
     braceSpans (trim (str "no braces here")) = [] ∧
     deconstruct_query (str "what did I write")
         (fun _ => .content (str "no braces here")) (fun _ => none) 3 =
       .plan (defaultPlanObj (str "no braces here"))) ∧
    ((∀ n : Nat, (fun _ : Nat => SvcResult.apiErr) n = .apiErr) ∧
     deconstruct_query (str "what did I write") (fun _ => .apiErr)
         (fun _ => none) 3 = .raised) :=
  ⟨⟨by decide, rfl, rfl, by decide,
    c1_amended_fallback_and_raise.1 (str "what did I write")
      (fun _ => .content (str "no braces here")) (fun _ => none)
      (str "no braces here") (by decide) rfl rfl (by decide)⟩,
   fun _ => rfl,
   c1_amended_fallback_and_raise.2 (str "what did I write")
     (fun _ => .apiErr) (fun _ => none) (by decide) (fun _ => rfl)⟩
